import Mathlib

/-!
Shallow embedding of the blog-post REST API implemented in
`src/server/index.js`: the relational store (`posts`, `tags`, `post_tags`),
the slug derivation, the tag-field parsing, and the five CRUD handlers.
Text is modelled as `List Char` (a JS string); machine effects (SQL rows,
`GROUP_CONCAT`, JS truthiness, thrown exceptions caught by the handlers)
are modelled explicitly.
-/

/-- Text is modelled as a list of characters (a JS string). -/
abbrev Str := List Char

namespace Blog

/-- Characters matching `[a-z0-9]`, the class kept by the slug regex at
`src/server/index.js:126`. -/
def isLowerAlnum (c : Char) : Bool :=
  (('a' ≤ c) && (c ≤ 'z')) || (('0' ≤ c) && (c ≤ '9'))

/-- JS `replace(/[^a-z0-9]+/g, '-')`: each maximal run of characters outside
`[a-z0-9]` becomes a single hyphen. The Boolean records whether the scan is
currently inside such a run. -/
def collapseRuns : Str → Bool → Str
  | [], _ => []
  | c :: rest, inRun =>
    if isLowerAlnum c then c :: collapseRuns rest false
    else if inRun then collapseRuns rest true
    else '-' :: collapseRuns rest true

/-- Drop a single leading hyphen (the `^-` alternative of the second slug
regex at `src/server/index.js:126`). -/
def dropLeadHyphen : Str → Str
  | [] => []
  | c :: rest => if c = '-' then rest else c :: rest

/-- JS `replace(/(^-|-$)/g, '')`: removes one leading and one trailing
hyphen. -/
def trimEdgeHyphens (l : Str) : Str :=
  (dropLeadHyphen (dropLeadHyphen l).reverse).reverse

/-- JS `toLowerCase`, character by character (ASCII case mapping). -/
def jsToLower (l : Str) : Str := l.map Char.toLower

/-- The slug computed at `src/server/index.js:126`:
`title.toLowerCase().replace(/[^a-z0-9]+/g, '-').replace(/(^-|-$)/g, '')`. -/
def slugOf (title : Str) : Str :=
  trimEdgeHyphens (collapseRuns (jsToLower title) false)

/-- Remove every leading and every trailing hyphen. -/
def trimAllHyphens (l : Str) : Str :=
  ((l.dropWhile (fun c => c == '-')).reverse.dropWhile (fun c => c == '-')).reverse

/-- Modelled from the spec: "lowercasing and replacing non-alphanumeric runs
with a single separator, trimmed of leading/trailing separators" — the run
replacement is the same transformation the code's first regex performs, and
the trim here removes every leading and trailing separator (where the code's
second regex removes at most one of each). -/
def specSlug (title : Str) : Str :=
  trimAllHyphens (collapseRuns (jsToLower title) false)

/-- A row of the `tags` table: stable identifier and name. -/
structure Tag where
  id : Nat
  name : Str
  deriving DecidableEq

/-- A row of the `posts` table. -/
structure Post where
  id : Nat
  title : Str
  slug : Str
  content : Str
  excerpt : Str
  featured_image : Option Str
  status : Str
  created_at : Nat
  deriving DecidableEq

/-- A row of the `post_tags` association table. -/
structure PostTag where
  post_id : Nat
  tag_id : Nat
  deriving DecidableEq

/-- The relational store: the three tables plus the autoincrement counters
that produce `result.lastID` for inserted posts and tags. -/
structure DbState where
  posts : List Post
  tags : List Tag
  post_tags : List PostTag
  nextPostId : Nat
  nextTagId : Nat
  deriving DecidableEq

/-- JS `String.prototype.split(',')`. -/
def splitComma : Str → List Str
  | [] => [[]]
  | c :: rest =>
    match splitComma rest with
    | [] => [[]]
    | s :: ss => if c = ',' then [] :: s :: ss else (c :: s) :: ss

/-- Concatenation with the comma separator, the joining step of SQLite
`GROUP_CONCAT` with its default separator. -/
def joinComma : List Str → Str
  | [] => []
  | [s] => s
  | s :: rest => s ++ ',' :: joinComma rest

/-- SQLite `GROUP_CONCAT(t.name)`: `NULL` (none) when the group aggregates
no non-null values. -/
def groupConcat (names : List Str) : Option Str :=
  match names with
  | [] => none
  | _ => some (joinComma names)

/-- JS `post.tags = post.tags ? post.tags.split(',') : []` (e.g. at
`src/server/index.js:70`): an absent aggregate and the empty-string
aggregate are both falsy in JS and yield `[]`. -/
def jsTagsSplit : Option Str → List Str
  | none => []
  | some s => if s.isEmpty then [] else splitComma s

/-- The tag names joined onto a post by
`LEFT JOIN post_tags ... LEFT JOIN tags ...`: one joined row per
association, skipping associations whose tag id matches no tag row (their
`t.name` is `NULL`, which `GROUP_CONCAT` ignores). -/
def tagNamesOf (s : DbState) (pid : Nat) : List Str :=
  (s.post_tags.filter (fun a => a.post_id == pid)).filterMap
    (fun a => (s.tags.find? (fun t => t.id == a.tag_id)).map Tag.name)

/-- The tag array a read operation attaches to a post: aggregate with
`GROUP_CONCAT`, then split at the JS boundary. -/
def postTagsView (s : DbState) (pid : Nat) : List Str :=
  jsTagsSplit (groupConcat (tagNamesOf s pid))

/-- JS whitespace dropped by `String.prototype.trim` (ASCII fragment). -/
def isJsWs (c : Char) : Bool :=
  c == ' ' || c == '\t' || c == '\n' || c == '\r' ||
  c == Char.ofNat 11 || c == Char.ofNat 12

/-- JS `String.prototype.trim`. -/
def jsTrim (l : Str) : Str :=
  ((l.dropWhile isJsWs).reverse.dropWhile isJsWs).reverse

/-- Skip JSON whitespace. -/
def skipWs : Str → Str :=
  List.dropWhile (fun c => c == ' ' || c == '\t' || c == '\n' || c == '\r')

/-- Hexadecimal digit value, for the `\u` escape of JSON strings. -/
def hexVal (c : Char) : Option Nat :=
  if '0' ≤ c ∧ c ≤ '9' then some (c.toNat - 48)
  else if 'a' ≤ c ∧ c ≤ 'f' then some (c.toNat - 87)
  else if 'A' ≤ c ∧ c ≤ 'F' then some (c.toNat - 55)
  else none

/-- Body of a JSON string literal after its opening quote: validates the
full string grammar of `JSON.parse` and returns the decoded characters and
the input remaining after the closing quote. `none` means the literal is
invalid (so `JSON.parse` throws); `some (none, rem)` means the literal is
valid but its value contains a lone UTF-16 surrogate `\u` escape, which
this model does not represent as a character. -/
def parseJsonStringBody : Str → Option (Option Str × Str)
  | [] => none
  | c :: rest =>
    if c = '"' then some (some [], rest)
    else if c = '\\' then
      match rest with
      | [] => none
      | e :: rest2 =>
        if e = 'u' then
          match rest2 with
          | h1 :: h2 :: h3 :: h4 :: rest3 =>
            match hexVal h1, hexVal h2, hexVal h3, hexVal h4 with
            | some a, some b, some c4, some d =>
              match parseJsonStringBody rest3 with
              | none => none
              | some (tail, rem) =>
                let code := ((a * 16 + b) * 16 + c4) * 16 + d
                if 0xD800 ≤ code ∧ code ≤ 0xDFFF then some (none, rem)
                else some (tail.map (fun t => Char.ofNat code :: t), rem)
            | _, _, _, _ => none
          | _ => none
        else
          let dec : Option Char :=
            if e = '"' then some '"'
            else if e = '\\' then some '\\'
            else if e = '/' then some '/'
            else if e = 'n' then some '\n'
            else if e = 't' then some '\t'
            else if e = 'r' then some '\r'
            else if e = 'b' then some (Char.ofNat 8)
            else if e = 'f' then some (Char.ofNat 12)
            else none
          match dec with
          | none => none
          | some d =>
            match parseJsonStringBody rest2 with
            | some (tail, rem) => some (tail.map (fun t => d :: t), rem)
            | none => none
    else if c.toNat < 32 then none
    else
      match parseJsonStringBody rest with
      | some (tail, rem) => some (tail.map (fun t => c :: t), rem)
      | none => none

/-- Consume the integer part of a JSON number: `0` or `[1-9][0-9]*`. -/
def parseIntPart : Str → Option Str
  | [] => none
  | c :: rest =>
    if c = '0' then some rest
    else if '1' ≤ c ∧ c ≤ '9' then some (rest.dropWhile Char.isDigit)
    else none

/-- Consume an optional JSON fraction part `.[0-9]+`. -/
def parseFracPart : Str → Option Str
  | '.' :: rest =>
    match rest with
    | c :: _ => if c.isDigit then some (rest.dropWhile Char.isDigit) else none
    | [] => none
  | l => some l

/-- Consume an optional JSON exponent part `[eE][+-]?[0-9]+`. -/
def parseExpPart : Str → Option Str
  | [] => some []
  | e :: rest =>
    if e = 'e' ∨ e = 'E' then
      let rest2 := match rest with
        | s :: r2 => if s = '+' ∨ s = '-' then r2 else s :: r2
        | [] => []
      match rest2 with
      | c :: _ => if c.isDigit then some (rest2.dropWhile Char.isDigit) else none
      | [] => none
    else some (e :: rest)

/-- Consume a full JSON number `-?(0|[1-9][0-9]*)(.[0-9]+)?([eE][+-]?[0-9]+)?`. -/
def parseJNumber (l : Str) : Option Str :=
  let l1 := match l with
    | '-' :: rest => rest
    | _ => l
  match parseIntPart l1 with
  | none => none
  | some r1 =>
    match parseFracPart r1 with
    | none => none
    | some r2 => parseExpPart r2

/-- Consume an expected literal word (`null`, `true`, `false`). -/
def dropLit : Str → Str → Option Str
  | [], l => some l
  | _ :: _, [] => none
  | c :: cs, x :: xs => if x = c then dropLit cs xs else none

/-- Outcome of one step of the JSON recognizer: definitely invalid input
(`JSON.parse` throws), recursion budget exhausted (classified as outside
the modeled fragment), or a recognized item. -/
inductive PRes (α : Type) where
  | bad
  | giveUp
  | good (a : α)

/-- The shape of one recognized JSON value, keeping exactly what the
tag-field consumer observes: `null`; a string value (`none` when it holds a
lone surrogate); an array of string values (`none` when some element is not
a string); or any other value — number, boolean, object — whose `length` is
`undefined`, so the tag loop is skipped. -/
inductive JKind where
  | kNull
  | kSkip
  | kStr (s : Option Str)
  | kArr (elems : Option (List (Option Str)))

mutual

/-- Recognize one JSON value of the full `JSON.parse` grammar. -/
def parseJValue : Nat → Str → PRes (JKind × Str)
  | 0, _ => .giveUp
  | fuel + 1, l =>
    match skipWs l with
    | [] => .bad
    | c :: rest =>
      if c = '"' then
        match parseJsonStringBody rest with
        | none => .bad
        | some (s, rem) => .good (.kStr s, rem)
      else if c = '[' then
        match skipWs rest with
        | ']' :: rem2 => .good (.kArr (some []), rem2)
        | _ =>
          match parseJArrayElems fuel rest with
          | .bad => .bad
          | .giveUp => .giveUp
          | .good (es, rem2) => .good (.kArr es, rem2)
      else if c = Char.ofNat 123 then
        match skipWs rest with
        | [] => .bad
        | d :: rem2 =>
          if d = Char.ofNat 125 then .good (.kSkip, rem2)
          else
            match parseJObjectMembers fuel rest with
            | .bad => .bad
            | .giveUp => .giveUp
            | .good rem3 => .good (.kSkip, rem3)
      else if c = 'n' then
        match dropLit ("null".toList) (c :: rest) with
        | some rem => .good (.kNull, rem)
        | none => .bad
      else if c = 't' then
        match dropLit ("true".toList) (c :: rest) with
        | some rem => .good (.kSkip, rem)
        | none => .bad
      else if c = 'f' then
        match dropLit ("false".toList) (c :: rest) with
        | some rem => .good (.kSkip, rem)
        | none => .bad
      else
        match parseJNumber (c :: rest) with
        | some rem => .good (.kSkip, rem)
        | none => .bad

/-- Recognize the elements of a nonempty JSON array after its `[`,
collecting the string values when every element is a string. -/
def parseJArrayElems : Nat → Str → PRes (Option (List (Option Str)) × Str)
  | 0, _ => .giveUp
  | fuel + 1, l =>
    match parseJValue fuel l with
    | .bad => .bad
    | .giveUp => .giveUp
    | .good (k, rem) =>
      let elem : Option (Option Str) :=
        match k with
        | .kStr s => some s
        | _ => none
      match skipWs rem with
      | ',' :: rest =>
        match parseJArrayElems fuel rest with
        | .bad => .bad
        | .giveUp => .giveUp
        | .good (es, rem2) =>
          .good ((match elem, es with
            | some s, some es2 => some (s :: es2)
            | _, _ => none), rem2)
      | ']' :: rest =>
        .good ((match elem with
          | some s => some [s]
          | none => none), rest)
      | _ => .bad

/-- Recognize the members of a nonempty JSON object after its opening
brace (syntax only; the value is observed as `kSkip`). -/
def parseJObjectMembers : Nat → Str → PRes Str
  | 0, _ => .giveUp
  | fuel + 1, l =>
    match skipWs l with
    | [] => .bad
    | c :: rest =>
      if c = '"' then
        match parseJsonStringBody rest with
        | none => .bad
        | some (_, rem) =>
          match skipWs rem with
          | ':' :: rest2 =>
            match parseJValue fuel rest2 with
            | .bad => .bad
            | .giveUp => .giveUp
            | .good (_, rem2) =>
              match skipWs rem2 with
              | [] => .bad
              | d :: rest3 =>
                if d = ',' then parseJObjectMembers fuel rest3
                else if d = Char.ofNat 125 then .good rest3
                else .bad
          | _ => .bad
      else .bad

end

/-- All-some sequencing of the decoded element values of a string array. -/
def seqOpts : List (Option Str) → Option (List Str)
  | [] => some []
  | none :: _ => none
  | some s :: rest => (seqOpts rest).map (fun es => s :: es)

/-- What the tag loop observes of a successful `JSON.parse(req.body.tags)`:
an array of strings (iterated element by element), a string (iterated
character by character), `null` (throws a `TypeError` at `tags.length`),
some other value whose `length` is `undefined` (the loop is skipped), or a
value outside the modeled fragment (an array with a non-string element,
whose SQL binding the missing schema does not determine, or a
lone-surrogate escape). -/
inductive JsonTags where
  | arrStr (elems : List Str)
  | strVal (s : Str)
  | nullVal
  | skipVal
  | outside
  deriving DecidableEq

/-- JS `JSON.parse` over the full JSON grammar: `none` exactly when parsing
throws; a successful parse is classified by what the tag loop observes.
The recursion budget is generous for the input length; exhausting it (only
possible on deeply nested input) conservatively classifies the value as
outside the modeled fragment rather than as a parse failure. -/
def jsonParse (l : Str) : Option JsonTags :=
  match parseJValue (l.length * 2 + 2) l with
  | .bad => none
  | .giveUp => some .outside
  | .good (k, rem) =>
    if (skipWs rem).isEmpty then
      some (match k with
        | .kNull => .nullVal
        | .kSkip => .skipVal
        | .kStr (some s) => .strVal s
        | .kStr none => .outside
        | .kArr (some es) =>
          match seqOpts es with
          | some names => .arrStr names
          | none => .outside
        | .kArr none => .outside)
    else none

/-- The catch fallback at `src/server/index.js:123` (identical at 186):
`split(',').map(t => t.trim()).filter(t => t)`. -/
def commaFallback (s : Str) : List Str :=
  ((splitComma s).map jsTrim).filter (fun t => !t.isEmpty)

/-- Effect of the tag-field parsing at `src/server/index.js:115-124`
(identical code at 178-187) on the later `if (tags.length > 0)` loop:
the list the `for...of` iterates, the `TypeError` thrown at `tags.length`
when the parsed value is `null`, or an input the model does not cover. An
absent or empty field is falsy and yields the empty list; a `JSON.parse`
failure falls back to the comma split; a parsed string is iterated
character by character; a parsed number, boolean or object has `undefined`
length and skips the loop. -/
inductive TagsEffect where
  | items (names : List Str)
  | jsThrow
  | unmodeled
  deriving DecidableEq

/-- The parsed tag input, classified by its effect on the handler. -/
def tagsEffect (field : Option Str) : TagsEffect :=
  match field with
  | none => .items []
  | some s =>
    if s.isEmpty then .items []
    else
      match jsonParse s with
      | none => .items (commaFallback s)
      | some (.arrStr elems) => .items elems
      | some (.strVal str) => .items (str.map (fun c => [c]))
      | some .nullVal => .jsThrow
      | some .skipVal => .items []
      | some .outside => .unmodeled

/-- The multipart body fields the create and update handlers destructure
from `req.body` (plus the optional uploaded file's stored name). -/
structure ReqBody where
  title : Option Str
  content : Str
  excerpt : Str
  status : Option Str
  tags : Option Str
  file : Option Str
  deriving DecidableEq

/-- SQL `SELECT id FROM tags WHERE name = ?` followed by
`INSERT INTO tags (name) VALUES (?)` when absent
(`src/server/index.js:139-143`): returns the updated store and the tag id
used for the association. -/
def lookupOrCreateTag (s : DbState) (n : Str) : DbState × Nat :=
  match s.tags.find? (fun t => t.name == n) with
  | some t => (s, t.id)
  | none =>
    ({ s with
        tags := s.tags ++ [⟨s.nextTagId, n⟩],
        nextTagId := s.nextTagId + 1 },
      s.nextTagId)

/-- The `for (const tagName of tags)` loop shared by create and update:
look up or create each tag, then insert one `post_tags` row. -/
def addTagsToPost (s : DbState) (pid : Nat) (names : List Str) : DbState :=
  names.foldl
    (fun st n =>
      let r := lookupOrCreateTag st n
      { r.1 with post_tags := r.1.post_tags ++ [⟨pid, r.2⟩] }) s

/-- The composed record the handlers re-fetch:
`SELECT p.*, GROUP_CONCAT(t.name) as tags ... WHERE p.id = ?` plus the JS
split of the aggregate. -/
def fetchPostWithTags (s : DbState) (pid : Nat) : Option (Post × List Str) :=
  (s.posts.find? (fun p => p.id == pid)).map (fun p => (p, postTagsView s pid))

/-- Outcome of `app.post('/api/posts')`: 201 with the composed record, the
500 produced by the handler's catch block, or a marker for requests whose
tag field is outside the modeled fragment (neither component of the
handler's answer models the program there). -/
inductive CreateResult
  | created (post : Post) (tagList : List Str)
  | serverError
  | outsideModel
  deriving DecidableEq

/-- The row inserted by
`INSERT INTO posts (title, slug, content, excerpt, featured_image, status)`
(`src/server/index.js:131-134`): id from the autoincrement counter, slug
derived from the title, image path prefixed with the upload directory,
status defaulting to `draft`, `created_at` from the clock. -/
def newPost (s : DbState) (now : Nat) (title : Str) (body : ReqBody) : Post :=
  { id := s.nextPostId, title := title, slug := slugOf title,
    content := body.content, excerpt := body.excerpt,
    featured_image := body.file.map (fun f => "/uploads/".toList ++ f),
    status := body.status.getD ("draft".toList), created_at := now }

/-- The store after a create that reaches the tag loop with `names`: the
post row inserted, then one association added per iterated tag name
(looking each tag up or creating it). -/
def createState (s : DbState) (now : Nat) (title : Str) (body : ReqBody)
    (names : List Str) : DbState :=
  addTagsToPost
    { s with
      posts := s.posts ++ [newPost s now title body]
      nextPostId := s.nextPostId + 1 }
    s.nextPostId names

/-- Handler `app.post('/api/posts')` at `src/server/index.js:112-171`. A missing
`title` makes `title.toLowerCase()` throw a `TypeError` before any write,
whatever the tag field held; the catch maps any throw to a 500 response.
When the parsed tag value is `null`, the `TypeError` at `tags.length`
(line 136) fires after the post row was inserted, so the row is kept, no
association is written, and the answer is the 500 of the catch. `now`
stands for the inserted row's `created_at` timestamp. -/
def createPost (s : DbState) (now : Nat) (body : ReqBody) : DbState × CreateResult :=
  match body.title with
  | none => (s, .serverError)
  | some title =>
    match tagsEffect body.tags with
    | .unmodeled => (s, .outsideModel)
    | .jsThrow =>
      ({ s with
          posts := s.posts ++ [newPost s now title body]
          nextPostId := s.nextPostId + 1 }, .serverError)
    | .items names =>
      match fetchPostWithTags (createState s now title body names) s.nextPostId with
      | some pr => (createState s now title body names, .created pr.1 pr.2)
      | none => (createState s now title body names, .serverError)

/-- Outcome of `app.put('/api/posts/:id')`: 400 on a falsy title, 200 with
the composed record, the 500 the catch produces (re-fetch of a nonexistent
id returning `undefined`, or the `TypeError` at `tags.length` on a parsed
`null`), or a marker for requests whose tag field is outside the modeled
fragment (neither component models the program there). -/
inductive UpdateResult
  | badRequest
  | ok (post : Post) (tagList : List Str)
  | serverError
  | outsideModel
  deriving DecidableEq

/-- JS truthiness of the `title` field: `!title` holds for an absent field
and for the empty string. -/
def titleTruthy : Option Str → Bool
  | none => false
  | some l => !l.isEmpty

/-- The effect of
`UPDATE posts SET title = ?, content = ?, excerpt = ?, status = ? WHERE id = ?`
on one row (`src/server/index.js:198-211`): only matching rows change, and
`featured_image` is written only when a replacement file arrived. -/
def applyUpdate (id : Nat) (body : ReqBody) (p : Post) : Post :=
  if p.id == id then
    { p with
      title := body.title.getD []
      content := body.content
      excerpt := body.excerpt
      status := body.status.getD ("draft".toList)
      featured_image :=
        match body.file with
        | some f => some ("/uploads/".toList ++ f)
        | none => p.featured_image }
  else p

/-- The store after the update handler's two unconditional writes: the
`UPDATE` on the post row and the `DELETE FROM post_tags WHERE post_id = ?`,
before any association is inserted. -/
def preTagState (s : DbState) (id : Nat) (body : ReqBody) : DbState :=
  { s with
    posts := s.posts.map (applyUpdate id body)
    post_tags := s.post_tags.filter (fun a => !(a.post_id == id)) }

/-- The store after an update that reaches the tag loop with `names`: the
two unconditional writes, then one association inserted per iterated tag
name. -/
def updateState (s : DbState) (id : Nat) (body : ReqBody) (names : List Str) : DbState :=
  addTagsToPost (preTagState s id body) id names

/-- Handler `app.put('/api/posts/:id')` at `src/server/index.js:174-253`: parse
tags, validate the title (400 when falsy, before any write), run the
`UPDATE` on the scalar columns, delete all associations of the post, insert
one association per iterated tag name, then re-fetch; a nonexistent id
makes the re-fetch yield `undefined` and the subsequent `.tags` access
throw, caught as a 500. When the parsed tag value is `null`, the
`TypeError` at `tags.length` (line 218) fires after the `UPDATE` and the
association delete and before any insert, answered as the 500 of the
catch. -/
def updatePost (s : DbState) (id : Nat) (body : ReqBody) : DbState × UpdateResult :=
  if !titleTruthy body.title then (s, .badRequest)
  else
    match tagsEffect body.tags with
    | .unmodeled => (s, .outsideModel)
    | .jsThrow => (preTagState s id body, .serverError)
    | .items names =>
      match fetchPostWithTags (updateState s id body names) id with
      | some pr => (updateState s id body names, .ok pr.1 pr.2)
      | none => (updateState s id body names, .serverError)

/-- Outcome of `app.delete('/api/posts/:id')`: the success acknowledgement
or the 404 taken when the post deletion affected zero rows. -/
inductive DeleteResult
  | okAck
  | notFound
  deriving DecidableEq

/-- Handler `app.delete('/api/posts/:id')` at `src/server/index.js:256-277`:
associations are deleted first, then the post row; `result.changes = 0`
yields the 404. -/
def deletePost (s : DbState) (id : Nat) : DbState × DeleteResult :=
  let s1 : DbState :=
    { s with post_tags := s.post_tags.filter (fun a => !(a.post_id == id)) }
  let changes := (s1.posts.filter (fun p => p.id == id)).length
  let s2 : DbState := { s1 with posts := s1.posts.filter (fun p => !(p.id == id)) }
  if changes == 0 then (s2, .notFound) else (s2, .okAck)

/-- SQL `ORDER BY p.created_at DESC`: the descending comparison. -/
def createdDesc (p q : Post) : Bool :=
  decide (q.created_at ≤ p.created_at)

/-- Handler `app.get('/api/posts')` at `src/server/index.js:55-78`: every post,
sorted by creation time descending, each with its split tag aggregate. -/
def listPosts (s : DbState) : List (Post × List Str) :=
  (s.posts.mergeSort createdDesc).map (fun p => (p, postTagsView s p.id))

/-- Handler `app.get('/api/posts/slug/:slug')` at `src/server/index.js:81-109`:
`none` models the 404 branch. -/
def getPostBySlug (s : DbState) (slug : Str) : Option (Post × List Str) :=
  (s.posts.find? (fun p => p.slug == slug)).map (fun p => (p, postTagsView s p.id))

/-- Every stored tag id is below the autoincrement counter. -/
def tagIdsFresh (s : DbState) : Bool :=
  s.tags.all (fun t => decide (t.id < s.nextTagId))

/-- No association row dangles on the post id the next insert will use. -/
def noAssocForNextPost (s : DbState) : Bool :=
  s.post_tags.all (fun a => !(a.post_id == s.nextPostId))

/-- Stored tag ids are pairwise distinct. -/
def tagIdsNodup (s : DbState) : Prop :=
  (s.tags.map Tag.id).Nodup

/-- Boolean check: the first character, if any, is not a hyphen. -/
def headNotHyphen : Str → Bool
  | [] => true
  | c :: _ => !(c == '-')

/-- Boolean check: no two adjacent hyphens anywhere. -/
def noDoubleHyphen : Str → Bool
  | c :: d :: rest => (!(c == '-') || !(d == '-')) && noDoubleHyphen (d :: rest)
  | _ => true

/-- The slug well-formedness the spec asserts: only lowercase alphanumerics
and hyphens, no hyphen runs, and no leading or trailing hyphen. -/
def slugShapeOk (l : Str) : Bool :=
  l.all (fun c => isLowerAlnum c || c == '-') && noDoubleHyphen l &&
  headNotHyphen l && headNotHyphen l.reverse

/-- Adjacent characters are never both hyphens. -/
def NoAdjHyphens (l : Str) : Prop :=
  List.Chain' (fun a b => ¬(a = '-' ∧ b = '-')) l

/-- The tag array carried by a create response, if any. -/
def resultTags : CreateResult → Option (List Str)
  | .created _ ts => some ts
  | .serverError => none
  | .outsideModel => none

lemma isLowerAlnum_ne_hyphen {c : Char} (h : isLowerAlnum c = true) : c ≠ '-' := by
  intro hc
  subst hc
  exact absurd h (by decide)

lemma mem_collapseRuns {c : Char} :
    ∀ {l : Str} {b : Bool}, c ∈ collapseRuns l b → isLowerAlnum c = true ∨ c = '-' := by
  intro l
  induction l with
  | nil => intro b h; simp [collapseRuns] at h
  | cons a t ih =>
    intro b h
    simp only [collapseRuns] at h
    by_cases ha : isLowerAlnum a = true
    · rw [if_pos ha] at h
      rcases List.mem_cons.mp h with rfl | h'
      · exact Or.inl ha
      · exact ih h'
    · rw [if_neg ha] at h
      cases b with
      | true => exact ih (by simpa using h)
      | false =>
        rcases List.mem_cons.mp (by simpa using h) with rfl | h'
        · exact Or.inr rfl
        · exact ih h'

lemma head_collapseRuns_true :
    ∀ {l : Str} {c : Char}, (collapseRuns l true).head? = some c → isLowerAlnum c = true := by
  intro l
  induction l with
  | nil => intro c h; simp [collapseRuns] at h
  | cons a t ih =>
    intro c h
    simp only [collapseRuns] at h
    by_cases ha : isLowerAlnum a = true
    · rw [if_pos ha] at h
      simp only [List.head?_cons, Option.some.injEq] at h
      exact h ▸ ha
    · rw [if_neg ha] at h
      exact ih (by simpa using h)

lemma chain_collapseRuns : ∀ (l : Str) (b : Bool), NoAdjHyphens (collapseRuns l b) := by
  intro l
  induction l with
  | nil => intro b; simp [collapseRuns, NoAdjHyphens]
  | cons a t ih =>
    intro b
    simp only [collapseRuns, NoAdjHyphens]
    by_cases ha : isLowerAlnum a = true
    · rw [if_pos ha]
      refine List.chain'_cons'.mpr ⟨?_, ih false⟩
      intro y _ hab
      exact isLowerAlnum_ne_hyphen ha hab.1
    · rw [if_neg ha]
      cases b with
      | true => simpa [NoAdjHyphens] using ih true
      | false =>
        simp only [Bool.false_eq_true, if_false]
        refine List.chain'_cons'.mpr ⟨?_, ih true⟩
        intro y hy hab
        exact isLowerAlnum_ne_hyphen (head_collapseRuns_true hy) hab.2

lemma dropWhile_eq_self_of_head {l : Str} {p : Char → Bool}
    (h : ∀ c, l.head? = some c → p c = false) : l.dropWhile p = l := by
  cases l with
  | nil => rfl
  | cons a t =>
    rw [List.dropWhile_cons, if_neg]
    rw [h a rfl]
    simp

lemma chain_tail {a : Char} {t : Str} (h : NoAdjHyphens (a :: t)) : NoAdjHyphens t :=
  (List.chain'_cons'.mp h).2

lemma dropLead_eq_dropWhile {l : Str} (h : NoAdjHyphens l) :
    dropLeadHyphen l = l.dropWhile (fun c => c == '-') := by
  cases l with
  | nil => rfl
  | cons a t =>
    by_cases ha : a = '-'
    · subst ha
      simp only [dropLeadHyphen, if_pos rfl, List.dropWhile_cons]
      rw [if_pos (by simp)]
      refine (dropWhile_eq_self_of_head ?_).symm
      intro c hc
      have := (List.chain'_cons'.mp h).1 c hc
      have hcne : c ≠ '-' := fun hcc => this ⟨rfl, hcc⟩
      simpa using hcne
    · simp only [dropLeadHyphen, if_neg ha, List.dropWhile_cons]
      rw [if_neg (by simpa using ha)]

lemma chain_dropWhile {p : Char → Bool} :
    ∀ {l : Str}, NoAdjHyphens l → NoAdjHyphens (l.dropWhile p) := by
  intro l
  induction l with
  | nil => intro h; exact h
  | cons a t ih =>
    intro h
    rw [List.dropWhile_cons]
    by_cases hp : p a = true
    · rw [if_pos hp]
      exact ih (chain_tail h)
    · rw [if_neg hp]
      exact h

lemma chain_reverse {l : Str} (h : NoAdjHyphens l) : NoAdjHyphens l.reverse := by
  refine List.chain'_reverse.mpr (h.imp ?_)
  intro a b hab hba
  exact hab ⟨hba.2, hba.1⟩

lemma head?_dropWhile_hyphen :
    ∀ {l : Str} {c : Char},
      (l.dropWhile (fun c => c == '-')).head? = some c → (c == '-') = false := by
  intro l
  induction l with
  | nil => intro c h; simp at h
  | cons a t ih =>
    intro c h
    rw [List.dropWhile_cons] at h
    by_cases ha : (a == '-') = true
    · rw [if_pos ha] at h
      exact ih h
    · rw [if_neg ha] at h
      simp only [List.head?_cons, Option.some.injEq] at h
      subst h
      simpa using ha

lemma dropWhile_getLast? {p : Char → Bool} :
    ∀ {l : Str}, l.dropWhile p ≠ [] → (l.dropWhile p).getLast? = l.getLast? := by
  intro l
  induction l with
  | nil => intro h; exact absurd rfl h
  | cons a t ih =>
    intro h
    rw [List.dropWhile_cons] at h ⊢
    by_cases hp : p a = true
    · rw [if_pos hp] at h ⊢
      have ht : t ≠ [] := by
        intro he
        rw [he] at h
        exact h rfl
      rw [ih h]
      cases t with
      | nil => exact absurd rfl ht
      | cons b u => rw [List.getLast?_cons_cons]
    · rw [if_neg hp]

lemma headNot_of_head? {l : Str} (h : ∀ c, l.head? = some c → (c == '-') = false) :
    headNotHyphen l = true := by
  cases l with
  | nil => rfl
  | cons a t =>
    simp only [headNotHyphen]
    rw [h a rfl]
    rfl

lemma noDouble_of_chain : ∀ {l : Str}, NoAdjHyphens l → noDoubleHyphen l = true := by
  intro l
  induction l with
  | nil => intro _; rfl
  | cons a t ih =>
    intro h
    cases t with
    | nil => rfl
    | cons b u =>
      simp only [noDoubleHyphen, Bool.and_eq_true]
      constructor
      · have hab := (List.chain'_cons'.mp h).1 b rfl
        by_cases hb : a = '-'
        · subst hb
          have : b ≠ '-' := fun hbb => hab ⟨rfl, hbb⟩
          simp [this]
        · simp [hb]
      · exact ih (chain_tail h)

lemma slugOf_eq_specSlug (title : Str) : slugOf title = specSlug title := by
  unfold slugOf specSlug trimEdgeHyphens trimAllHyphens
  have hA : NoAdjHyphens (collapseRuns (jsToLower title) false) :=
    chain_collapseRuns _ _
  rw [dropLead_eq_dropWhile hA,
    dropLead_eq_dropWhile (chain_reverse (chain_dropWhile hA))]

lemma shape_trimAll {l : Str}
    (hmem : ∀ c ∈ l, isLowerAlnum c = true ∨ c = '-')
    (hch : NoAdjHyphens l) : slugShapeOk (trimAllHyphens l) = true := by
  unfold slugShapeOk trimAllHyphens
  simp only [Bool.and_eq_true]
  refine ⟨⟨⟨?_, ?_⟩, ?_⟩, ?_⟩
  · refine List.all_eq_true.mpr ?_
    intro c hc
    have h1 : c ∈ (l.dropWhile (fun c => c == '-')).reverse.dropWhile (fun c => c == '-') :=
      List.mem_reverse.mp hc
    have h2 : c ∈ (l.dropWhile (fun c => c == '-')).reverse :=
      List.Sublist.mem h1 (List.dropWhile_sublist _)
    have h3 : c ∈ l :=
      List.Sublist.mem (List.mem_reverse.mp h2) (List.dropWhile_sublist _)
    rcases hmem c h3 with h | h
    · simp [h]
    · simp [h]
  · exact noDouble_of_chain
      (chain_reverse (chain_dropWhile (chain_reverse (chain_dropWhile hch))))
  · refine headNot_of_head? ?_
    intro c hc
    rw [List.head?_reverse] at hc
    have hne : (l.dropWhile (fun c => c == '-')).reverse.dropWhile (fun c => c == '-') ≠ [] := by
      intro h0
      rw [h0] at hc
      simp at hc
    rw [dropWhile_getLast? hne, List.getLast?_reverse] at hc
    exact head?_dropWhile_hyphen hc
  · rw [List.reverse_reverse]
    exact headNot_of_head? (fun c hc => head?_dropWhile_hyphen hc)

/-- C2: for every title, the slug derived at creation time
(`src/server/index.js:126`) equals the spec's transformation — lowercase,
replace each maximal non-alphanumeric run by one hyphen, trim leading and
trailing hyphens — and therefore contains only lowercase alphanumerics and
single hyphens, with no leading or trailing hyphen. -/
theorem c2_slug_derivation (title : Str) :
    slugOf title = specSlug title ∧ slugShapeOk (slugOf title) = true ∧
    (∀ (s : DbState) (now : Nat) (body : ReqBody),
      (newPost s now title body).slug = specSlug title ∧
      slugShapeOk ((newPost s now title body).slug) = true) := by
  have hshape : slugShapeOk (slugOf title) = true := by
    rw [slugOf_eq_specSlug title]
    exact shape_trimAll (fun c hc => mem_collapseRuns hc) (chain_collapseRuns _ _)
  refine ⟨slugOf_eq_specSlug title, hshape, ?_⟩
  intro s now body
  have hnp : (newPost s now title body).slug = slugOf title := rfl
  rw [hnp]
  exact ⟨slugOf_eq_specSlug title, hshape⟩

lemma splitComma_ne_nil : ∀ (l : Str), splitComma l ≠ [] := by
  intro l
  cases l with
  | nil => simp [splitComma]
  | cons c rest =>
    simp only [splitComma]
    cases splitComma rest with
    | nil => simp
    | cons s ss =>
      by_cases hc : c = ','
      · simp [hc]
      · simp [hc]

lemma splitComma_no_comma : ∀ {n : Str}, ',' ∉ n → splitComma n = [n] := by
  intro n
  induction n with
  | nil => intro _; rfl
  | cons c rest ih =>
    intro h
    have hc : c ≠ ',' := fun hcc => h (hcc ▸ List.mem_cons_self c rest)
    have hrest : ',' ∉ rest := fun hm => h (List.mem_cons_of_mem c hm)
    simp only [splitComma, ih hrest]
    simp [hc]

lemma splitComma_append_comma :
    ∀ {n rest : Str}, ',' ∉ n → splitComma (n ++ ',' :: rest) = n :: splitComma rest := by
  intro n
  induction n with
  | nil =>
    intro rest _
    simp only [List.nil_append, splitComma]
    rcases hs : splitComma rest with _ | ⟨s, ss⟩
    · exact absurd hs (splitComma_ne_nil rest)
    · simp
  | cons c n' ih =>
    intro rest h
    have hc : c ≠ ',' := fun hcc => h (hcc ▸ List.mem_cons_self c n')
    have hn' : ',' ∉ n' := fun hm => h (List.mem_cons_of_mem c hm)
    simp only [List.cons_append, splitComma, List.append_eq]
    rw [ih hn']
    simp [hc]

lemma splitComma_joinComma :
    ∀ {names : List Str}, names ≠ [] → (∀ n ∈ names, ',' ∉ n) →
      splitComma (joinComma names) = names := by
  intro names
  induction names with
  | nil => intro h _; exact absurd rfl h
  | cons n rest ih =>
    intro _ h
    cases rest with
    | nil =>
      simp only [joinComma]
      exact splitComma_no_comma (h n (List.mem_cons_self n []))
    | cons m rest' =>
      have hjoin : joinComma (n :: m :: rest') = n ++ ',' :: joinComma (m :: rest') := rfl
      rw [hjoin, splitComma_append_comma (h n (List.mem_cons_self n _))]
      rw [ih (by simp) (fun x hx => h x (List.mem_cons_of_mem n hx))]

lemma length_splitComma : ∀ (l : Str), (splitComma l).length = l.count ',' + 1 := by
  intro l
  induction l with
  | nil => rfl
  | cons c rest ih =>
    simp only [splitComma]
    rcases hs : splitComma rest with _ | ⟨s, ss⟩
    · exact absurd hs (splitComma_ne_nil rest)
    · rw [hs] at ih
      have hshow :
          (match s :: ss with
            | [] => [([] : Str)]
            | s :: ss => if c = ',' then [] :: s :: ss else (c :: s) :: ss) =
            (if c = ',' then [] :: s :: ss else (c :: s) :: ss) := rfl
      rw [hshow]
      by_cases hc : c = ','
      · rw [if_pos hc]
        subst hc
        simp only [List.length_cons, List.count_cons] at ih ⊢
        simp at ih ⊢
        omega
      · rw [if_neg hc]
        simp only [List.length_cons, List.count_cons] at ih ⊢
        have hb : (c == ',') = false := by simpa using hc
        rw [hb]
        simp at ih ⊢
        omega

lemma count_joinComma :
    ∀ {names : List Str}, names ≠ [] →
      (joinComma names).count ',' + 1 =
        (names.map (fun n => n.count ',')).sum + names.length := by
  intro names
  induction names with
  | nil => intro h; exact absurd rfl h
  | cons n rest ih =>
    intro _
    cases rest with
    | nil => simp [joinComma]
    | cons m rest' =>
      have hjoin : joinComma (n :: m :: rest') = n ++ ',' :: joinComma (m :: rest') := rfl
      rw [hjoin]
      have h2 := ih (by simp)
      simp only [List.count_append, List.count_cons, List.map_cons, List.sum_cons,
        List.length_cons] at h2 ⊢
      simp at h2 ⊢
      omega

lemma roundtrip_iff {names : List Str} (h : names ≠ []) :
    splitComma (joinComma names) = names ↔ ∀ n ∈ names, ',' ∉ n := by
  constructor
  · intro heq
    have hlen : (splitComma (joinComma names)).length = names.length := by rw [heq]
    rw [length_splitComma] at hlen
    have hcount := count_joinComma h
    intro n hn
    rw [← List.count_eq_zero]
    have hsum : (names.map (fun n => n.count ',')).sum = 0 := by omega
    have hmem : n.count ',' ∈ names.map (fun n => n.count ',') := List.mem_map_of_mem _ hn
    exact List.sum_eq_zero_iff.mp hsum _ hmem
  · exact splitComma_joinComma h

/-- C1: the claim says a create request with a missing title yields a 400;
on the code, `title.toLowerCase()` at `src/server/index.js:126` throws a
`TypeError` that the handler's catch turns into a 500 (the create handler
has no title validation at all), with no row written. -/
theorem c1_missing_title_yields_500 :
    (createPost ⟨[], [], [], 0, 0⟩ 0 ⟨none, [], [], none, none, none⟩).2 =
        CreateResult.serverError ∧
      (createPost ⟨[], [], [], 0, 0⟩ 0 ⟨none, [], [], none, none, none⟩).1 =
        ⟨[], [], [], 0, 0⟩ := by
  exact ⟨rfl, rfl⟩

/-- C5: the delete handler removes the associations of the post first (even
when the post does not exist), answers 404 exactly when the post-row
deletion affected zero rows, and a delete of a nonexistent id leaves the
posts table unchanged. -/
theorem c5_delete_assoc_first_and_404 (s : DbState) (id : Nat) :
    (deletePost s id).1.post_tags = s.post_tags.filter (fun a => !(a.post_id == id)) ∧
    ((deletePost s id).2 = DeleteResult.notFound ↔
      (s.posts.filter (fun p => p.id == id)).length = 0) ∧
    ((s.posts.filter (fun p => p.id == id)).length = 0 →
      (deletePost s id).1.posts = s.posts) := by
  by_cases h : (s.posts.filter (fun p => p.id == id)).length = 0
  · refine ⟨?_, ?_, ?_⟩
    · simp [deletePost, h]
    · simp [deletePost, h]
    · intro _
      have hnil : s.posts.filter (fun p => p.id == id) = [] := List.length_eq_zero.mp h
      have hall : ∀ p ∈ s.posts, ¬((fun p : Post => p.id == id) p = true) :=
        List.filter_eq_nil_iff.mp hnil
      have hself : s.posts.filter (fun p => !(p.id == id)) = s.posts := by
        refine List.filter_eq_self.mpr ?_
        intro a ha
        have ha2 := hall a ha
        simp only [Bool.not_eq_true] at ha2 ⊢
        rw [ha2]
        rfl
      simp [deletePost, h, hself]
  · refine ⟨?_, ?_, fun h' => absurd h' h⟩
    · simp [deletePost, h]
    · simp [deletePost, h]

/-- Concrete instantiation of the C5 theorem: deleting id 5 from a store
with one post (id 1) answers 404 and leaves the posts table unchanged. -/
theorem c5_witness :
    (deletePost ⟨[⟨1, ['t'], ['t'], [], [], none, [], 0⟩], [], [], 2, 0⟩ 5).2 =
        DeleteResult.notFound ∧
      (deletePost ⟨[⟨1, ['t'], ['t'], [], [], none, [], 0⟩], [], [], 2, 0⟩ 5).1.posts =
        [⟨1, ['t'], ['t'], [], [], none, [], 0⟩] := by
  refine ⟨?_, ?_⟩
  · exact (c5_delete_assoc_first_and_404 ⟨[⟨1, ['t'], ['t'], [], [], none, [], 0⟩], [], [], 2, 0⟩ 5).2.1.mpr (by decide)
  · exact (c5_delete_assoc_first_and_404 ⟨[⟨1, ['t'], ['t'], [], [], none, [], 0⟩], [], [], 2, 0⟩ 5).2.2 (by decide)

lemma lookupOrCreateTag_post_tags (s : DbState) (n : Str) :
    (lookupOrCreateTag s n).1.post_tags = s.post_tags := by
  unfold lookupOrCreateTag
  cases s.tags.find? (fun t => t.name == n) <;> rfl

lemma lookupOrCreateTag_posts (s : DbState) (n : Str) :
    (lookupOrCreateTag s n).1.posts = s.posts := by
  unfold lookupOrCreateTag
  cases s.tags.find? (fun t => t.name == n) <;> rfl

lemma lookupOrCreateTag_nextPostId (s : DbState) (n : Str) :
    (lookupOrCreateTag s n).1.nextPostId = s.nextPostId := by
  unfold lookupOrCreateTag
  cases s.tags.find? (fun t => t.name == n) <;> rfl

lemma addTagsToPost_cons (s : DbState) (pid : Nat) (n : Str) (rest : List Str) :
    addTagsToPost s pid (n :: rest) =
      addTagsToPost
        { (lookupOrCreateTag s n).1 with
          post_tags := (lookupOrCreateTag s n).1.post_tags ++
            [⟨pid, (lookupOrCreateTag s n).2⟩] }
        pid rest := rfl

lemma addTagsToPost_posts :
    ∀ (names : List Str) (s : DbState) (pid : Nat),
      (addTagsToPost s pid names).posts = s.posts := by
  intro names
  induction names with
  | nil => intro s pid; rfl
  | cons n rest ih =>
    intro s pid
    rw [addTagsToPost_cons, ih]
    exact lookupOrCreateTag_posts s n

lemma addTagsToPost_nextPostId :
    ∀ (names : List Str) (s : DbState) (pid : Nat),
      (addTagsToPost s pid names).nextPostId = s.nextPostId := by
  intro names
  induction names with
  | nil => intro s pid; rfl
  | cons n rest ih =>
    intro s pid
    rw [addTagsToPost_cons, ih]
    exact lookupOrCreateTag_nextPostId s n

lemma addTagsToPost_assoc_len :
    ∀ (names : List Str) (s : DbState) (pid : Nat),
      ((addTagsToPost s pid names).post_tags.filter (fun a => a.post_id == pid)).length =
        (s.post_tags.filter (fun a => a.post_id == pid)).length + names.length := by
  intro names
  induction names with
  | nil => intro s pid; rfl
  | cons n rest ih =>
    intro s pid
    rw [addTagsToPost_cons, ih]
    have h2 : ({ (lookupOrCreateTag s n).1 with
        post_tags := (lookupOrCreateTag s n).1.post_tags ++
          [⟨pid, (lookupOrCreateTag s n).2⟩] } : DbState).post_tags =
        s.post_tags ++ [⟨pid, (lookupOrCreateTag s n).2⟩] := by
      show (lookupOrCreateTag s n).1.post_tags ++ _ = _
      rw [lookupOrCreateTag_post_tags]
    rw [h2, List.filter_append]
    simp [List.length_append]
    omega

lemma filter_not_filter (l : List PostTag) (id : Nat) :
    (l.filter (fun a => !(a.post_id == id))).filter (fun a => a.post_id == id) = [] := by
  refine List.filter_eq_nil_iff.mpr ?_
  intro a ha
  have h2 := (List.mem_filter.mp ha).2
  simp only [Bool.not_eq_true'] at h2
  simp [h2]

lemma updatePost_fst_items (s : DbState) (id : Nat) (body : ReqBody) (names : List Str)
    (h : titleTruthy body.title = true)
    (ht : tagsEffect body.tags = TagsEffect.items names) :
    (updatePost s id body).1 = updateState s id body names := by
  unfold updatePost
  rw [h]
  simp only [Bool.not_true, Bool.false_eq_true, if_false]
  rw [ht]
  show (match fetchPostWithTags (updateState s id body names) id with
    | some pr => (updateState s id body names, UpdateResult.ok pr.1 pr.2)
    | none => (updateState s id body names, UpdateResult.serverError)).1 =
    updateState s id body names
  cases fetchPostWithTags (updateState s id body names) id <;> rfl

lemma updatePost_jsThrow (s : DbState) (id : Nat) (body : ReqBody)
    (h : titleTruthy body.title = true)
    (ht : tagsEffect body.tags = TagsEffect.jsThrow) :
    updatePost s id body = (preTagState s id body, UpdateResult.serverError) := by
  unfold updatePost
  rw [h]
  simp only [Bool.not_true, Bool.false_eq_true, if_false]
  rw [ht]

lemma updatePost_snd_of_fetch_none (s : DbState) (id : Nat) (body : ReqBody)
    (names : List Str)
    (h : titleTruthy body.title = true)
    (ht : tagsEffect body.tags = TagsEffect.items names)
    (hn : fetchPostWithTags (updateState s id body names) id = none) :
    (updatePost s id body).2 = UpdateResult.serverError := by
  unfold updatePost
  rw [h]
  simp only [Bool.not_true, Bool.false_eq_true, if_false]
  rw [ht]
  show (match fetchPostWithTags (updateState s id body names) id with
    | some pr => (updateState s id body names, UpdateResult.ok pr.1 pr.2)
    | none => (updateState s id body names, UpdateResult.serverError)).2 =
    UpdateResult.serverError
  rw [hn]

lemma preTagState_assoc (s : DbState) (id : Nat) (body : ReqBody) :
    (preTagState s id body).post_tags.filter (fun a => a.post_id == id) = [] := by
  show (s.post_tags.filter (fun a => !(a.post_id == id))).filter _ = []
  exact filter_not_filter s.post_tags id

/-- C3: the update handler with a valid title deletes every existing
association of the post before inserting: when the parsed tag input is a
list, exactly one association is created per supplied tag name — an empty
list leaves zero associations and a subsequent read yields an empty tag
array, not an array containing an empty string; when the parsed value is
`null`, the throw at `tags.length` fires after the unconditional delete,
so the post likewise ends with zero associations and the catch answers
500. -/
theorem c3_update_reconciles_tags (s : DbState) (id : Nat) (body : ReqBody)
    (h : titleTruthy body.title = true) :
    (∀ names, tagsEffect body.tags = TagsEffect.items names →
      ((updatePost s id body).1.post_tags.filter (fun a => a.post_id == id)).length =
        names.length ∧
      (names = [] →
        (updatePost s id body).1.post_tags.filter (fun a => a.post_id == id) = [] ∧
        postTagsView (updatePost s id body).1 id = [] ∧
        postTagsView (updatePost s id body).1 id ≠ [[]])) ∧
    (tagsEffect body.tags = TagsEffect.jsThrow →
      (updatePost s id body).1.post_tags.filter (fun a => a.post_id == id) = [] ∧
      (updatePost s id body).2 = UpdateResult.serverError) := by
  constructor
  · intro names ht
    rw [updatePost_fst_items s id body names h ht]
    constructor
    · unfold updateState
      rw [addTagsToPost_assoc_len, preTagState_assoc]
      simp
    · intro hempty
      subst hempty
      have hstate : updateState s id body [] = preTagState s id body := rfl
      rw [hstate]
      refine ⟨preTagState_assoc s id body, ?_, ?_⟩
      · unfold postTagsView tagNamesOf
        rw [preTagState_assoc]
        rfl
      · unfold postTagsView tagNamesOf
        rw [preTagState_assoc]
        intro hcontra
        exact absurd hcontra (by simp [groupConcat, jsTagsSplit])
  · intro ht
    rw [updatePost_jsThrow s id body h ht]
    exact ⟨preTagState_assoc s id body, rfl⟩

/-- Concrete instantiation of the C3 theorem: updating the post with id 1
(which has one tag) with an absent tags field leaves it with zero
associations and an empty tag array on read. -/
theorem c3_witness :
    ((updatePost ⟨[⟨1, ['t'], ['t'], [], [], none, [], 0⟩], [⟨0, ['a']⟩], [⟨1, 0⟩], 2, 1⟩
        1 ⟨some ['u'], [], [], none, none, none⟩).1.post_tags.filter
        (fun a => a.post_id == 1) = []) ∧
      postTagsView (updatePost ⟨[⟨1, ['t'], ['t'], [], [], none, [], 0⟩], [⟨0, ['a']⟩],
        [⟨1, 0⟩], 2, 1⟩ 1 ⟨some ['u'], [], [], none, none, none⟩).1 1 = [] := by
  have h := ((c3_update_reconciles_tags
    ⟨[⟨1, ['t'], ['t'], [], [], none, [], 0⟩], [⟨0, ['a']⟩], [⟨1, 0⟩], 2, 1⟩
    1 ⟨some ['u'], [], [], none, none, none⟩ (by decide)).1 [] (by rfl)).2 rfl
  exact ⟨h.1, h.2.1⟩

/-- C6: updating a nonexistent id with a valid title performs no existence
check: the `UPDATE` silently affects zero rows (the posts table is
unchanged), tag reconciliation still runs to completion (one association
per supplied tag is inserted for the dangling id), and the re-fetch finds
nothing — the only error surfaced is the 500 produced after
reconciliation. -/
theorem c6_update_nonexistent_id (s : DbState) (id : Nat) (body : ReqBody)
    (hid : s.posts.all (fun p => !(p.id == id)) = true)
    (h : titleTruthy body.title = true) :
    ∀ names, tagsEffect body.tags = TagsEffect.items names →
      (updatePost s id body).1.posts = s.posts ∧
      ((updatePost s id body).1.post_tags.filter (fun a => a.post_id == id)).length =
        names.length ∧
      fetchPostWithTags (updatePost s id body).1 id = none ∧
      (updatePost s id body).2 = UpdateResult.serverError := by
  intro names ht
  have hmap : s.posts.map (applyUpdate id body) = s.posts := by
    have hcongr : ∀ p ∈ s.posts, applyUpdate id body p = p := by
      intro p hp
      have hb := List.all_eq_true.mp hid p hp
      simp only [Bool.not_eq_true'] at hb
      unfold applyUpdate
      rw [hb]
      simp
    calc s.posts.map (applyUpdate id body)
        = s.posts.map (fun p => p) := List.map_congr_left hcongr
      _ = s.posts := List.map_id' s.posts
  have hposts : (updateState s id body names).posts = s.posts := by
    unfold updateState
    rw [addTagsToPost_posts]
    show s.posts.map (applyUpdate id body) = s.posts
    exact hmap
  have hfetch : fetchPostWithTags (updateState s id body names) id = none := by
    unfold fetchPostWithTags
    rw [hposts]
    have hfind : s.posts.find? (fun p => p.id == id) = none := by
      refine List.find?_eq_none.mpr ?_
      intro p hp
      have hb := List.all_eq_true.mp hid p hp
      simp only [Bool.not_eq_true'] at hb
      simp [hb]
    rw [hfind]
    rfl
  rw [updatePost_fst_items s id body names h ht]
  refine ⟨hposts, ?_, hfetch,
    updatePost_snd_of_fetch_none s id body names h ht hfetch⟩
  unfold updateState
  rw [addTagsToPost_assoc_len, preTagState_assoc]
  simp

/-- Concrete instantiation of the C6 theorem: updating id 99 in a store
whose only post has id 1 leaves the posts table unchanged, inserts the one
supplied association under the dangling id, finds nothing on re-fetch, and
answers 500. -/
theorem c6_witness :
    (updatePost ⟨[⟨1, ['t'], ['t'], [], [], none, [], 0⟩], [], [], 2, 0⟩
        99 ⟨some ['u'], [], [], none, some ['z'], none⟩).1.posts =
      [⟨1, ['t'], ['t'], [], [], none, [], 0⟩] ∧
    (updatePost ⟨[⟨1, ['t'], ['t'], [], [], none, [], 0⟩], [], [], 2, 0⟩
        99 ⟨some ['u'], [], [], none, some ['z'], none⟩).2 = UpdateResult.serverError := by
  have h := c6_update_nonexistent_id
    ⟨[⟨1, ['t'], ['t'], [], [], none, [], 0⟩], [], [], 2, 0⟩
    99 ⟨some ['u'], [], [], none, some ['z'], none⟩ (by decide) (by decide)
    [['z']] (by rfl)
  exact ⟨h.1, h.2.2.2⟩

/-- C4: a post with zero joined tag names yields an empty tag array — not
an array containing an empty string — in both read operations; the
aggregate is `NULL` there and the split special-cases it to `[]`. -/
theorem c4_no_tags_reads_empty (s : DbState) (pid : Nat)
    (h : tagNamesOf s pid = []) :
    postTagsView s pid = [] ∧
    (∀ pr ∈ listPosts s, pr.1.id = pid → pr.2 = []) ∧
    (∀ sl pr, getPostBySlug s sl = some pr → pr.1.id = pid → pr.2 = []) := by
  have hview : postTagsView s pid = [] := by
    unfold postTagsView
    rw [h]
    rfl
  refine ⟨hview, ?_, ?_⟩
  · intro pr hpr hid
    unfold listPosts at hpr
    rcases List.mem_map.mp hpr with ⟨p, _, rfl⟩
    show postTagsView s p.id = []
    have hpid : p.id = pid := hid
    rw [hpid]
    exact hview
  · intro sl pr hfind hid
    unfold getPostBySlug at hfind
    rcases Option.map_eq_some'.mp hfind with ⟨p, _, rfl⟩
    show postTagsView s p.id = []
    have hpid : p.id = pid := hid
    rw [hpid]
    exact hview

/-- Concrete instantiation of the C4 theorem: the post with id 1 has no
associations, so its view is the empty array. -/
theorem c4_witness :
    postTagsView ⟨[⟨1, ['t'], ['t'], [], [], none, [], 0⟩], [], [], 2, 0⟩ 1 = [] :=
  (c4_no_tags_reads_empty ⟨[⟨1, ['t'], ['t'], [], [], none, [], 0⟩], [], [], 2, 0⟩ 1 rfl).1

/-- C8: the list operation returns every post (a permutation of the table)
ordered by creation time descending: adjacent entries are non-increasing in
`created_at`, and strictly decreasing where the timestamps differ. -/
theorem c8_list_ordered_desc (s : DbState) :
    List.Chain' (fun a b => b.1.created_at ≤ a.1.created_at) (listPosts s) ∧
    ((listPosts s).map Prod.fst).Perm s.posts ∧
    List.Chain' (fun a b =>
      a.1.created_at ≠ b.1.created_at → b.1.created_at < a.1.created_at)
      (listPosts s) := by
  have htrans : ∀ a b c : Post, createdDesc a b = true → createdDesc b c = true →
      createdDesc a c = true := by
    intro a b c
    unfold createdDesc
    simp only [decide_eq_true_eq]
    omega
  have htotal : ∀ a b : Post, (createdDesc a b || createdDesc b a) = true := by
    intro a b
    unfold createdDesc
    simp only [Bool.or_eq_true, decide_eq_true_eq]
    omega
  have hpair : List.Pairwise (fun a b => createdDesc a b = true)
      (s.posts.mergeSort createdDesc) :=
    List.sorted_mergeSort htrans htotal s.posts
  have hchain : List.Chain' (fun a b : Post => b.created_at ≤ a.created_at)
      (s.posts.mergeSort createdDesc) := by
    refine List.Pairwise.chain' (hpair.imp ?_)
    intro a b hab
    unfold createdDesc at hab
    exact of_decide_eq_true hab
  have hmapped : List.Chain' (fun a b => b.1.created_at ≤ a.1.created_at) (listPosts s) := by
    unfold listPosts
    exact (List.chain'_map _).mpr hchain
  refine ⟨hmapped, ?_, ?_⟩
  · have hfst : (listPosts s).map Prod.fst = s.posts.mergeSort createdDesc := by
      unfold listPosts
      rw [List.map_map]
      exact List.map_id' _
    rw [hfst]
    exact List.mergeSort_perm s.posts createdDesc
  · refine hmapped.imp ?_
    intro a b hle hne
    exact Nat.lt_of_le_of_ne hle (fun heq => hne heq.symm)

/-- C9: the tag field of a create or update request (both handlers run the
identical parsing code) is accepted as a JSON-encoded array or as a
comma-separated string: an absent field parses to the empty list, a JSON
parse yielding a string array is taken as-is, and a genuine JSON parse
failure falls back to splitting on commas, trimming each piece and
dropping empty pieces. -/
theorem c9_tag_field_parsing :
    tagsEffect none = TagsEffect.items [] ∧
    (∀ f arr, jsonParse f = some (JsonTags.arrStr arr) →
      tagsEffect (some f) = TagsEffect.items arr) ∧
    (∀ f, jsonParse f = none →
      tagsEffect (some f) = TagsEffect.items (commaFallback f)) := by
  refine ⟨rfl, ?_, ?_⟩
  · intro f arr hj
    by_cases hf : f.isEmpty = true
    · have hfe : f = [] := List.isEmpty_iff.mp hf
      subst hfe
      rw [show jsonParse [] = none from rfl] at hj
      exact Option.noConfusion hj
    · simp [tagsEffect, hf, hj]
  · intro f hj
    by_cases hf : f.isEmpty = true
    · have hfe : f = [] := List.isEmpty_iff.mp hf
      subst hfe
      rfl
    · simp [tagsEffect, hf, hj]

/-- Concrete instantiation of the C9 theorem: a JSON-encoded string array
is taken as-is, and a malformed field is comma-split with trimming and
empty pieces dropped. -/
theorem c9_witness :
    tagsEffect (some ("[\"a\",\"b\"]".toList)) = TagsEffect.items [['a'], ['b']] ∧
    tagsEffect (some ("x, ,y".toList)) = TagsEffect.items [['x'], ['y']] := by
  refine ⟨?_, ?_⟩
  · exact c9_tag_field_parsing.2.1 _ _ (by rfl)
  · exact (c9_tag_field_parsing.2.2 _ (by rfl)).trans (by rfl)

lemma lookupOrCreateTag_tags_ext (s : DbState) (n : Str) :
    (lookupOrCreateTag s n).1.tags = s.tags ∨
    (lookupOrCreateTag s n).1.tags = s.tags ++ [⟨s.nextTagId, n⟩] := by
  unfold lookupOrCreateTag
  cases s.tags.find? (fun t => t.name == n) with
  | none => exact Or.inr rfl
  | some t => exact Or.inl rfl

lemma lookupOrCreateTag_nextTagId_le (s : DbState) (n : Str) :
    s.nextTagId ≤ (lookupOrCreateTag s n).1.nextTagId := by
  unfold lookupOrCreateTag
  cases s.tags.find? (fun t => t.name == n) with
  | none => exact Nat.le_succ _
  | some t => exact Nat.le_refl _

lemma lookupOrCreateTag_fresh (s : DbState) (n : Str) (h : tagIdsFresh s = true) :
    tagIdsFresh (lookupOrCreateTag s n).1 = true := by
  unfold lookupOrCreateTag
  cases hf : s.tags.find? (fun t => t.name == n) with
  | some t => exact h
  | none =>
    unfold tagIdsFresh at h ⊢
    refine List.all_eq_true.mpr ?_
    intro t ht
    rcases List.mem_append.mp ht with h1 | h1
    · have h2 := List.all_eq_true.mp h t h1
      simp only [decide_eq_true_eq] at h2 ⊢
      omega
    · rcases List.mem_singleton.mp h1 with rfl
      simp only [decide_eq_true_eq]
      omega

lemma lookupOrCreateTag_tid_lt (s : DbState) (n : Str) (h : tagIdsFresh s = true) :
    (lookupOrCreateTag s n).2 < (lookupOrCreateTag s n).1.nextTagId := by
  unfold lookupOrCreateTag
  cases hf : s.tags.find? (fun t => t.name == n) with
  | some t =>
    have hmem := List.mem_of_find?_eq_some hf
    have h2 := List.all_eq_true.mp h t hmem
    simpa using h2
  | none => exact Nat.lt_succ_self _

lemma lookupOrCreateTag_nodup (s : DbState) (n : Str) (h : tagIdsFresh s = true)
    (hd : tagIdsNodup s) : tagIdsNodup (lookupOrCreateTag s n).1 := by
  unfold lookupOrCreateTag
  cases hf : s.tags.find? (fun t => t.name == n) with
  | some t => exact hd
  | none =>
    unfold tagIdsNodup at hd ⊢
    show (List.map Tag.id (s.tags ++ [⟨s.nextTagId, n⟩])).Nodup
    rw [List.map_append]
    refine List.nodup_append.mpr ⟨hd, List.nodup_singleton _, ?_⟩
    refine List.disjoint_singleton.mpr ?_
    intro hmem
    rcases List.mem_map.mp hmem with ⟨t, htm, hid⟩
    have h2 := List.all_eq_true.mp h t htm
    simp only [decide_eq_true_eq] at h2
    have hid2 : t.id = s.nextTagId := hid
    omega

lemma lookupOrCreateTag_resolves (s : DbState) (n : Str) (h : tagIdsFresh s = true)
    (hd : tagIdsNodup s) :
    ∃ r : Tag,
      (lookupOrCreateTag s n).1.tags.find? (fun t => t.id == (lookupOrCreateTag s n).2) =
        some r ∧ r.name = n := by
  unfold lookupOrCreateTag
  cases hf : s.tags.find? (fun t => t.name == n) with
  | some t =>
    have htmem : t ∈ s.tags := List.mem_of_find?_eq_some hf
    have htname : t.name = n := by
      have h2 := List.find?_some hf
      simpa using h2
    have hsome : (s.tags.find? (fun x => x.id == t.id)).isSome = true :=
      List.find?_isSome.mpr ⟨t, htmem, by simp⟩
    rcases Option.isSome_iff_exists.mp hsome with ⟨r, hr⟩
    refine ⟨r, hr, ?_⟩
    have hrmem : r ∈ s.tags := List.mem_of_find?_eq_some hr
    have hrid : r.id = t.id := by
      have h2 := List.find?_some hr
      simpa using h2
    have hrt : r = t := List.inj_on_of_nodup_map hd hrmem htmem hrid
    rw [hrt, htname]
  | none =>
    refine ⟨⟨s.nextTagId, n⟩, ?_, rfl⟩
    have hold : s.tags.find? (fun t => t.id == s.nextTagId) = none := by
      refine List.find?_eq_none.mpr ?_
      intro x hx
      have h2 := List.all_eq_true.mp h x hx
      simp only [decide_eq_true_eq] at h2
      simp only [beq_iff_eq]
      omega
    show (s.tags ++ [(⟨s.nextTagId, n⟩ : Tag)]).find?
        (fun t => t.id == s.nextTagId) = some (⟨s.nextTagId, n⟩ : Tag)
    rw [List.find?_append, hold]
    simp

lemma lookupOrCreateTag_stable (s : DbState) (n : Str) (tid : Nat) (r : Tag)
    (hr : s.tags.find? (fun t => t.id == tid) = some r) :
    (lookupOrCreateTag s n).1.tags.find? (fun t => t.id == tid) = some r := by
  rcases lookupOrCreateTag_tags_ext s n with he | he
  · rw [he]
    exact hr
  · rw [he, List.find?_append, hr]
    rfl

lemma addTagsToPost_view :
    ∀ (names : List Str) (s : DbState) (pid : Nat),
      tagIdsFresh s = true → tagIdsNodup s →
      (∀ a ∈ s.post_tags, a.post_id = pid → a.tag_id < s.nextTagId) →
      tagNamesOf (addTagsToPost s pid names) pid = tagNamesOf s pid ++ names := by
  intro names
  induction names with
  | nil => intro s pid _ _ _; simp [addTagsToPost]
  | cons n rest ih =>
    intro s pid hfresh hnodup hbound
    rw [addTagsToPost_cons]
    have hstep : tagNamesOf
        ({ (lookupOrCreateTag s n).1 with
          post_tags := (lookupOrCreateTag s n).1.post_tags ++
            [⟨pid, (lookupOrCreateTag s n).2⟩] } : DbState) pid =
        tagNamesOf s pid ++ [n] := by
      unfold tagNamesOf
      have hpt : ({ (lookupOrCreateTag s n).1 with
          post_tags := (lookupOrCreateTag s n).1.post_tags ++
            [⟨pid, (lookupOrCreateTag s n).2⟩] } : DbState).post_tags =
          s.post_tags ++ [⟨pid, (lookupOrCreateTag s n).2⟩] := by
        show (lookupOrCreateTag s n).1.post_tags ++ _ = _
        rw [lookupOrCreateTag_post_tags]
      have htg : ({ (lookupOrCreateTag s n).1 with
          post_tags := (lookupOrCreateTag s n).1.post_tags ++
            [⟨pid, (lookupOrCreateTag s n).2⟩] } : DbState).tags =
          (lookupOrCreateTag s n).1.tags := rfl
      rw [hpt, htg, List.filter_append]
      have hone : List.filter (fun a => a.post_id == pid)
          [(⟨pid, (lookupOrCreateTag s n).2⟩ : PostTag)] =
          [⟨pid, (lookupOrCreateTag s n).2⟩] := by simp
      rw [hone, List.filterMap_append]
      congr 1
      · refine List.filterMap_congr ?_
        intro a ha
        have hamem : a ∈ s.post_tags := (List.mem_filter.mp ha).1
        have hapid : a.post_id = pid := by
          have h2 := (List.mem_filter.mp ha).2
          simpa using h2
        have hlt : a.tag_id < s.nextTagId := hbound a hamem hapid
        cases hrs : s.tags.find? (fun t => t.id == a.tag_id) with
        | some r => rw [lookupOrCreateTag_stable s n a.tag_id r hrs]
        | none =>
          rcases lookupOrCreateTag_tags_ext s n with he | he
          · rw [he, hrs]
          · rw [he, List.find?_append, hrs]
            have hnone : List.find? (fun t => t.id == a.tag_id)
                [(⟨s.nextTagId, n⟩ : Tag)] = none := by
              refine List.find?_eq_none.mpr ?_
              intro x hx
              rcases List.mem_singleton.mp hx with rfl
              simp only [beq_iff_eq]
              omega
            rw [hnone]
            rfl
      · rcases lookupOrCreateTag_resolves s n hfresh hnodup with ⟨r, hr, hname⟩
        show List.filterMap _ [(⟨pid, (lookupOrCreateTag s n).2⟩ : PostTag)] = [n]
        simp only [List.filterMap]
        rw [hr]
        simp [hname]
    have hfreshB : tagIdsFresh ({ (lookupOrCreateTag s n).1 with
        post_tags := (lookupOrCreateTag s n).1.post_tags ++
          [⟨pid, (lookupOrCreateTag s n).2⟩] } : DbState) = true :=
      lookupOrCreateTag_fresh s n hfresh
    have hnodupB : tagIdsNodup ({ (lookupOrCreateTag s n).1 with
        post_tags := (lookupOrCreateTag s n).1.post_tags ++
          [⟨pid, (lookupOrCreateTag s n).2⟩] } : DbState) :=
      lookupOrCreateTag_nodup s n hfresh hnodup
    have hboundB : ∀ a ∈ ({ (lookupOrCreateTag s n).1 with
        post_tags := (lookupOrCreateTag s n).1.post_tags ++
          [⟨pid, (lookupOrCreateTag s n).2⟩] } : DbState).post_tags,
        a.post_id = pid →
        a.tag_id < ({ (lookupOrCreateTag s n).1 with
          post_tags := (lookupOrCreateTag s n).1.post_tags ++
            [⟨pid, (lookupOrCreateTag s n).2⟩] } : DbState).nextTagId := by
      intro a ha hapid
      have hpt2 : ({ (lookupOrCreateTag s n).1 with
          post_tags := (lookupOrCreateTag s n).1.post_tags ++
            [⟨pid, (lookupOrCreateTag s n).2⟩] } : DbState).post_tags =
          s.post_tags ++ [⟨pid, (lookupOrCreateTag s n).2⟩] := by
        show (lookupOrCreateTag s n).1.post_tags ++ _ = _
        rw [lookupOrCreateTag_post_tags]
      rw [hpt2] at ha
      show a.tag_id < (lookupOrCreateTag s n).1.nextTagId
      rcases List.mem_append.mp ha with h1 | h1
      · have hb1 := hbound a h1 hapid
        have hle := lookupOrCreateTag_nextTagId_le s n
        omega
      · rcases List.mem_singleton.mp h1 with rfl
        exact lookupOrCreateTag_tid_lt s n hfresh
    rw [ih _ pid hfreshB hnodupB hboundB, hstep, List.append_assoc]
    rfl

lemma addTagsToPost_fresh :
    ∀ (names : List Str) (s : DbState) (pid : Nat),
      tagIdsFresh s = true → tagIdsFresh (addTagsToPost s pid names) = true := by
  intro names
  induction names with
  | nil => intro s pid h; exact h
  | cons n rest ih =>
    intro s pid h
    rw [addTagsToPost_cons]
    exact ih _ pid (lookupOrCreateTag_fresh s n h)

lemma addTagsToPost_nodup :
    ∀ (names : List Str) (s : DbState) (pid : Nat),
      tagIdsFresh s = true → tagIdsNodup s →
      tagIdsNodup (addTagsToPost s pid names) := by
  intro names
  induction names with
  | nil => intro s pid _ hd; exact hd
  | cons n rest ih =>
    intro s pid h hd
    rw [addTagsToPost_cons]
    exact ih _ pid (lookupOrCreateTag_fresh s n h) (lookupOrCreateTag_nodup s n h hd)

lemma createPost_preserves_wf (s : DbState) (now : Nat) (body : ReqBody)
    (hf : tagIdsFresh s = true) (hd : tagIdsNodup s) :
    tagIdsFresh (createPost s now body).1 = true ∧
    tagIdsNodup (createPost s now body).1 := by
  unfold createPost
  cases body.title with
  | none => exact ⟨hf, hd⟩
  | some title =>
    cases tagsEffect body.tags with
    | unmodeled => exact ⟨hf, hd⟩
    | jsThrow => exact ⟨hf, hd⟩
    | items names =>
      have h1 : tagIdsFresh (createState s now title body names) = true := by
        unfold createState
        exact addTagsToPost_fresh names _ _ hf
      have h2 : tagIdsNodup (createState s now title body names) := by
        unfold createState
        exact addTagsToPost_nodup names _ _ hf hd
      show tagIdsFresh
          (match fetchPostWithTags (createState s now title body names) s.nextPostId with
            | some pr => (createState s now title body names, CreateResult.created pr.1 pr.2)
            | none => (createState s now title body names, CreateResult.serverError)).1 =
          true ∧
        tagIdsNodup
          (match fetchPostWithTags (createState s now title body names) s.nextPostId with
            | some pr => (createState s now title body names, CreateResult.created pr.1 pr.2)
            | none => (createState s now title body names, CreateResult.serverError)).1
      cases fetchPostWithTags (createState s now title body names) s.nextPostId with
      | some pr => exact ⟨h1, h2⟩
      | none => exact ⟨h1, h2⟩

lemma updatePost_preserves_wf (s : DbState) (id : Nat) (body : ReqBody)
    (hf : tagIdsFresh s = true) (hd : tagIdsNodup s) :
    tagIdsFresh (updatePost s id body).1 = true ∧
    tagIdsNodup (updatePost s id body).1 := by
  unfold updatePost
  by_cases h : (!titleTruthy body.title) = true
  · rw [if_pos h]
    exact ⟨hf, hd⟩
  · rw [if_neg h]
    cases tagsEffect body.tags with
    | unmodeled => exact ⟨hf, hd⟩
    | jsThrow => exact ⟨hf, hd⟩
    | items names =>
      have h1 : tagIdsFresh (updateState s id body names) = true := by
        unfold updateState
        exact addTagsToPost_fresh names _ _ hf
      have h2 : tagIdsNodup (updateState s id body names) := by
        unfold updateState
        exact addTagsToPost_nodup names _ _ hf hd
      show tagIdsFresh
          (match fetchPostWithTags (updateState s id body names) id with
            | some pr => (updateState s id body names, UpdateResult.ok pr.1 pr.2)
            | none => (updateState s id body names, UpdateResult.serverError)).1 =
          true ∧
        tagIdsNodup
          (match fetchPostWithTags (updateState s id body names) id with
            | some pr => (updateState s id body names, UpdateResult.ok pr.1 pr.2)
            | none => (updateState s id body names, UpdateResult.serverError)).1
      cases fetchPostWithTags (updateState s id body names) id with
      | some pr => exact ⟨h1, h2⟩
      | none => exact ⟨h1, h2⟩

lemma deletePost_preserves_wf (s : DbState) (id : Nat)
    (hf : tagIdsFresh s = true) (hd : tagIdsNodup s) :
    tagIdsFresh (deletePost s id).1 = true ∧
    tagIdsNodup (deletePost s id).1 := by
  have h1 : (deletePost s id).1.tags = s.tags := by
    by_cases h : (s.posts.filter (fun p => p.id == id)).length = 0
    · simp [deletePost, h]
    · simp [deletePost, h]
  have h2 : (deletePost s id).1.nextTagId = s.nextTagId := by
    by_cases h : (s.posts.filter (fun p => p.id == id)).length = 0
    · simp [deletePost, h]
    · simp [deletePost, h]
  constructor
  · unfold tagIdsFresh
    simp only [h1, h2]
    exact hf
  · unfold tagIdsNodup
    simp only [h1]
    exact hd

/-- C7 (amended): the tag store deduplicates by name and creates lazily —
an existing row is reused, otherwise exactly one row is inserted; tag-id
hygiene (ids pairwise distinct and below the counter) is preserved by every
modeled operation; and creating a post whose tag loop iterates distinct,
comma-free names `[A, B]` in an id-hygienic store with no dangling
association on the fresh post id reads back exactly `[A, B]`: a permutation
of the supplied pair with no duplicates, even when `A` is already used by
another post. -/
theorem c7_tag_dedup_and_readback (s : DbState) (now : Nat) (body : ReqBody)
    (T A B : Str)
    (hT : body.title = some T)
    (ht : tagsEffect body.tags = TagsEffect.items [A, B])
    (hAB : A ≠ B)
    (hcA : ',' ∉ A) (hcB : ',' ∉ B)
    (hfresh : tagIdsFresh s = true)
    (hnodup : tagIdsNodup s)
    (hassoc : noAssocForNextPost s = true) :
    (∀ (st : DbState) (n : Str) (t : Tag),
        st.tags.find? (fun x => x.name == n) = some t →
        (lookupOrCreateTag st n).1.tags = st.tags ∧ (lookupOrCreateTag st n).2 = t.id) ∧
    (∀ (st : DbState) (n : Str),
        st.tags.find? (fun x => x.name == n) = none →
        (lookupOrCreateTag st n).1.tags = st.tags ++ [⟨st.nextTagId, n⟩]) ∧
    (∀ st : DbState, tagIdsFresh st = true → tagIdsNodup st →
      (∀ (now2 : Nat) (b2 : ReqBody),
        tagIdsFresh (createPost st now2 b2).1 = true ∧
        tagIdsNodup (createPost st now2 b2).1) ∧
      (∀ (i : Nat) (b2 : ReqBody),
        tagIdsFresh (updatePost st i b2).1 = true ∧
        tagIdsNodup (updatePost st i b2).1) ∧
      (∀ i : Nat,
        tagIdsFresh (deletePost st i).1 = true ∧
        tagIdsNodup (deletePost st i).1)) ∧
    ∃ p, (createPost s now body).2 = CreateResult.created p [A, B] ∧
      ([A, B] : List Str).Perm [A, B] ∧ ([A, B] : List Str).Nodup := by
  refine ⟨?_, ?_, ?_, ?_⟩
  · intro st n t hft
    unfold lookupOrCreateTag
    rw [hft]
    exact ⟨rfl, rfl⟩
  · intro st n hft
    unfold lookupOrCreateTag
    rw [hft]
  · intro st hf hd
    exact ⟨fun now2 b2 => createPost_preserves_wf st now2 b2 hf hd,
      fun i b2 => updatePost_preserves_wf st i b2 hf hd,
      fun i => deletePost_preserves_wf st i hf hd⟩
  · have hfreshS1 : tagIdsFresh ({ s with
        posts := s.posts ++ [newPost s now T body]
        nextPostId := s.nextPostId + 1 } : DbState) = true := hfresh
    have hnodupS1 : tagIdsNodup ({ s with
        posts := s.posts ++ [newPost s now T body]
        nextPostId := s.nextPostId + 1 } : DbState) := hnodup
    have hboundS1 : ∀ a ∈ ({ s with
        posts := s.posts ++ [newPost s now T body]
        nextPostId := s.nextPostId + 1 } : DbState).post_tags,
        a.post_id = s.nextPostId →
        a.tag_id < ({ s with
          posts := s.posts ++ [newPost s now T body]
          nextPostId := s.nextPostId + 1 } : DbState).nextTagId := by
      intro a ha hpid
      have h2 := List.all_eq_true.mp hassoc a ha
      simp only [Bool.not_eq_true'] at h2
      rw [hpid] at h2
      simp at h2
    have hemptyS1 : tagNamesOf ({ s with
        posts := s.posts ++ [newPost s now T body]
        nextPostId := s.nextPostId + 1 } : DbState) s.nextPostId = [] := by
      unfold tagNamesOf
      have hfilter : List.filter (fun a => a.post_id == s.nextPostId) s.post_tags = [] := by
        refine List.filter_eq_nil_iff.mpr ?_
        intro a ha
        have h2 := List.all_eq_true.mp hassoc a ha
        simp only [Bool.not_eq_true'] at h2
        simp [h2]
      show (List.filter (fun a => a.post_id == s.nextPostId) s.post_tags).filterMap _ = []
      rw [hfilter]
      rfl
    have hview : tagNamesOf (createState s now T body [A, B]) s.nextPostId = [A, B] := by
      unfold createState
      rw [addTagsToPost_view [A, B] _ s.nextPostId hfreshS1 hnodupS1 hboundS1,
        hemptyS1]
      rfl
    have hjoin : joinComma [A, B] = A ++ ',' :: B := rfl
    have hne : (A ++ ',' :: B).isEmpty = false := by
      cases A <;> rfl
    have hsplit : splitComma (joinComma [A, B]) = [A, B] := by
      refine splitComma_joinComma (by simp) ?_
      intro n hn
      rcases List.mem_cons.mp hn with rfl | hn2
      · exact hcA
      · rcases List.mem_singleton.mp hn2 with rfl
        exact hcB
    have hpview : postTagsView (createState s now T body [A, B]) s.nextPostId = [A, B] := by
      unfold postTagsView
      rw [hview]
      show jsTagsSplit (some (joinComma [A, B])) = [A, B]
      simp only [jsTagsSplit]
      rw [hjoin]
      rw [if_neg (by simp [hne])]
      rw [← hjoin, hsplit]
    have hposts : (createState s now T body [A, B]).posts =
        s.posts ++ [newPost s now T body] := by
      unfold createState
      rw [addTagsToPost_posts]
    have hsome : ((createState s now T body [A, B]).posts.find?
        (fun p => p.id == s.nextPostId)).isSome = true := by
      refine List.find?_isSome.mpr ?_
      refine ⟨newPost s now T body, ?_, ?_⟩
      · rw [hposts]
        exact List.mem_append.mpr (Or.inr (List.mem_singleton.mpr rfl))
      · show ((newPost s now T body).id == s.nextPostId) = true
        simp [newPost]
    rcases Option.isSome_iff_exists.mp hsome with ⟨p', hp'⟩
    have hfetch : fetchPostWithTags (createState s now T body [A, B]) s.nextPostId =
        some (p', [A, B]) := by
      unfold fetchPostWithTags
      rw [hp']
      show some (p', postTagsView (createState s now T body [A, B]) s.nextPostId) = _
      rw [hpview]
    refine ⟨p', ?_, List.Perm.refl _, by simp [hAB]⟩
    unfold createPost
    rw [hT]
    show (match tagsEffect body.tags with
      | TagsEffect.unmodeled => (s, CreateResult.outsideModel)
      | TagsEffect.jsThrow =>
        ({ s with
            posts := s.posts ++ [newPost s now T body]
            nextPostId := s.nextPostId + 1 }, CreateResult.serverError)
      | TagsEffect.items names =>
        match fetchPostWithTags (createState s now T body names) s.nextPostId with
        | some pr => (createState s now T body names, CreateResult.created pr.1 pr.2)
        | none => (createState s now T body names, CreateResult.serverError)).2 =
      CreateResult.created p' [A, B]
    rw [ht]
    show (match fetchPostWithTags (createState s now T body [A, B]) s.nextPostId with
      | some pr => (createState s now T body [A, B], CreateResult.created pr.1 pr.2)
      | none => (createState s now T body [A, B], CreateResult.serverError)).2 =
      CreateResult.created p' [A, B]
    rw [hfetch]

/-- Concrete instantiation of the C7 theorem: the store already holds tag
`a` used by post 0; creating a new post with tags `[a, b]` reads back
exactly `[a, b]` with no duplicate. -/
theorem c7_witness :
    ∃ p, (createPost ⟨[⟨0, ['x'], ['x'], [], [], none, [], 0⟩], [⟨0, ['a']⟩],
        [⟨0, 0⟩], 1, 1⟩ 5
        ⟨some ['t'], [], [], none, some ("[\"a\",\"b\"]".toList), none⟩).2 =
      CreateResult.created p [['a'], ['b']] ∧
      ([['a'], ['b']] : List Str).Perm [['a'], ['b']] ∧
      ([['a'], ['b']] : List Str).Nodup :=
  (c7_tag_dedup_and_readback
    ⟨[⟨0, ['x'], ['x'], [], [], none, [], 0⟩], [⟨0, ['a']⟩], [⟨0, 0⟩], 1, 1⟩ 5
    ⟨some ['t'], [], [], none, some ("[\"a\",\"b\"]".toList), none⟩
    ['t'] ['a'] ['b'] rfl (by rfl) (by decide) (by decide) (by decide)
    (by decide) (by unfold tagIdsNodup; decide) (by decide)).2.2.2

/-- C7 counterexample: as literally stated — for every pair of distinct
tags in any store — the claim fails on the code in two independent ways.
First, a tag name containing a comma: creating a post with distinct tags
`a,b` and `c` reads back `[a, b, c]`, not a permutation of the supplied
pair. Second, a dangling association left on the id the new post receives
(such a store is reachable: updating a nonexistent id inserts exactly such
rows, see the C6 theorem): with comma-free distinct tags `[a, b]` the new
post inherits the dangling tag `z` and reads back `[z, a, b]`. -/
theorem c7_counterexample :
    (resultTags (createPost ⟨[], [], [], 0, 0⟩ 0
        ⟨some ['t'], [], [], none, some ("[\"a,b\",\"c\"]".toList), none⟩).2 =
      some [['a'], ['b'], ['c']] ∧
    ¬ ([['a'], ['b'], ['c']] : List Str).Perm ["a,b".toList, "c".toList]) ∧
    (resultTags (createPost ⟨[], [⟨0, ['z']⟩], [⟨0, 0⟩], 0, 1⟩ 0
        ⟨some ['t'], [], [], none, some ("[\"a\",\"b\"]".toList), none⟩).2 =
      some [['z'], ['a'], ['b']] ∧
    ¬ ([['z'], ['a'], ['b']] : List Str).Perm [['a'], ['b']]) := by
  refine ⟨⟨?_, by decide⟩, ⟨?_, by decide⟩⟩
  · rfl
  · rfl

lemma postTagsView_eq_split (s : DbState) (pid : Nat)
    (h1 : tagNamesOf s pid ≠ [])
    (h2 : joinComma (tagNamesOf s pid) ≠ []) :
    postTagsView s pid = splitComma (joinComma (tagNamesOf s pid)) := by
  unfold postTagsView
  rcases hn : tagNamesOf s pid with _ | ⟨m, ms⟩
  · exact absurd hn h1
  · rw [hn] at h2
    show jsTagsSplit (some (joinComma (m :: ms))) = splitComma (joinComma (m :: ms))
    simp only [jsTagsSplit]
    rw [if_neg]
    intro hcon
    exact h2 (List.isEmpty_iff.mp hcon)

/-- C10 (amended): for a post with at least one joined tag name whose
comma-joined aggregate is nonempty, the returned tag array is exactly the
comma-split of the comma-joined names; that round-trip restores the stored
names exactly when no name contains a comma, and a single stored tag whose
name contains a comma comes back as at least two entries. Both read
operations attach exactly this view. -/
theorem c10_split_of_join_roundtrip (s : DbState) (pid : Nat)
    (h1 : tagNamesOf s pid ≠ [])
    (h2 : joinComma (tagNamesOf s pid) ≠ []) :
    postTagsView s pid = splitComma (joinComma (tagNamesOf s pid)) ∧
    (postTagsView s pid = tagNamesOf s pid ↔ ∀ n ∈ tagNamesOf s pid, ',' ∉ n) ∧
    (∀ n, tagNamesOf s pid = [n] → ',' ∈ n → 2 ≤ (postTagsView s pid).length) ∧
    (∀ pr ∈ listPosts s, pr.2 = postTagsView s pr.1.id) ∧
    (∀ sl pr, getPostBySlug s sl = some pr → pr.2 = postTagsView s pr.1.id) := by
  have hsplit := postTagsView_eq_split s pid h1 h2
  refine ⟨hsplit, ?_, ?_, ?_, ?_⟩
  · rw [hsplit]
    exact roundtrip_iff h1
  · intro n hn hcomma
    rw [hsplit, hn]
    show 2 ≤ (splitComma (joinComma [n])).length
    have hjn : joinComma [n] = n := rfl
    rw [hjn, length_splitComma]
    have hpos := List.count_pos_iff.mpr hcomma
    omega
  · intro pr hpr
    unfold listPosts at hpr
    rcases List.mem_map.mp hpr with ⟨p, _, rfl⟩
    rfl
  · intro sl pr hfind
    unfold getPostBySlug at hfind
    rcases Option.map_eq_some'.mp hfind with ⟨p, _, rfl⟩
    rfl

/-- Concrete instantiation of the C10 theorem: a post whose single tag is
named `x,y` reads back as the two entries `[x, y]`. -/
theorem c10_witness :
    postTagsView ⟨[⟨1, ['t'], ['t'], [], [], none, [], 0⟩],
        [⟨0, "x,y".toList⟩], [⟨1, 0⟩], 2, 1⟩ 1 =
      splitComma (joinComma (tagNamesOf ⟨[⟨1, ['t'], ['t'], [], [], none, [], 0⟩],
        [⟨0, "x,y".toList⟩], [⟨1, 0⟩], 2, 1⟩ 1)) ∧
    2 ≤ (postTagsView ⟨[⟨1, ['t'], ['t'], [], [], none, [], 0⟩],
        [⟨0, "x,y".toList⟩], [⟨1, 0⟩], 2, 1⟩ 1).length := by
  have h := c10_split_of_join_roundtrip
    ⟨[⟨1, ['t'], ['t'], [], [], none, [], 0⟩], [⟨0, "x,y".toList⟩], [⟨1, 0⟩], 2, 1⟩ 1
    (by decide) (by decide)
  exact ⟨h.1, h.2.2.1 "x,y".toList (by decide) (by decide)⟩

/-- C10 counterexample: the claim as literally stated — for every post —
fails on the code: a post with zero tags returns `[]`, not the comma-split
of the comma-joined (empty) name list, which is `[""]`; and a post whose
single tag is named `""` has only comma-free names yet reads back `[]`,
not its stored name list, so the round-trip is not the identity there
either. -/
theorem c10_counterexample :
    (postTagsView ⟨[⟨1, ['t'], ['t'], [], [], none, [], 0⟩], [], [], 2, 0⟩ 1 ≠
      splitComma (joinComma
        (tagNamesOf ⟨[⟨1, ['t'], ['t'], [], [], none, [], 0⟩], [], [], 2, 0⟩ 1))) ∧
    ((∀ n ∈ tagNamesOf ⟨[⟨1, ['t'], ['t'], [], [], none, [], 0⟩],
        [⟨0, []⟩], [⟨1, 0⟩], 2, 1⟩ 1, ',' ∉ n) ∧
      postTagsView ⟨[⟨1, ['t'], ['t'], [], [], none, [], 0⟩],
        [⟨0, []⟩], [⟨1, 0⟩], 2, 1⟩ 1 ≠
      tagNamesOf ⟨[⟨1, ['t'], ['t'], [], [], none, [], 0⟩],
        [⟨0, []⟩], [⟨1, 0⟩], 2, 1⟩ 1) := by
  refine ⟨by decide, by decide, by decide⟩

end Blog
